import Mathlib

/-!
Verification of the rq configuration cascade resolver and template
expression engine, shallowly embedded from the Go sources
(`dock` package: `loadConfig`, `GetConfig`; `variable` package:
`Resolve`, `evaluateExpression`, `getParams`, `isString`,
`RegisterFunc`, `evaluateFunction`, `joinArgs`).
-/

/-- Decidable equality for `Except` (needed to evaluate concrete runs of
the engine inside proofs). -/
instance {ε α : Type} [DecidableEq ε] [DecidableEq α] : DecidableEq (Except ε α) :=
  fun a b =>
    match a, b with
    | Except.ok x, Except.ok y =>
      if h : x = y then Decidable.isTrue (by rw [h])
      else Decidable.isFalse (by intro hc; cases hc; exact h rfl)
    | Except.ok _, Except.error _ => Decidable.isFalse (by intro hc; cases hc)
    | Except.error _, Except.ok _ => Decidable.isFalse (by intro hc; cases hc)
    | Except.error x, Except.error y =>
      if h : x = y then Decidable.isTrue (by rw [h])
      else Decidable.isFalse (by intro hc; cases hc; exact h rfl)

namespace Rq

/-- Whitespace characters recognised by `strings.TrimSpace` / `\s`
(ASCII subset; the claims only involve ASCII text). -/
def isSpaceChar (c : Char) : Bool :=
  c == ' ' || c == '\t' || c == '\n' || c == '\r' || c == '\x0b' || c == '\x0c'

/-- Trim whitespace from both ends of a character list
(model of Go `strings.TrimSpace`). -/
def trimChars (cs : List Char) : List Char :=
  ((cs.dropWhile isSpaceChar).reverse.dropWhile isSpaceChar).reverse

/-- `strings.TrimSpace` on strings. -/
def trimS (s : String) : String := String.mk (trimChars s.data)

/-- Go `strings.Split` on a one-character separator, over char lists
(all separators used by the sources are single characters). -/
def splitOnChar (sep : Char) (cs : List Char) : List (List Char) :=
  match cs with
  | [] => [[]]
  | c :: rest =>
    if c == sep then [] :: splitOnChar sep rest
    else
      match splitOnChar sep rest with
      | [] => [[c]]
      | h :: t => (c :: h) :: t

/-- Go `strings.Split(s, sep)` for a one-character separator. -/
def strSplit (s : String) (sep : Char) : List String :=
  (splitOnChar sep s.data).map String.mk

/-- Go `strings.Join(parts, sep)`. -/
def strJoin (sep : String) (parts : List String) : String :=
  match parts with
  | [] => ""
  | [x] => x
  | x :: y :: t => x ++ sep ++ strJoin sep (y :: t)

/-- Go `strings.HasPrefix(s, "#")`. -/
def startsWithHash (s : String) : Bool :=
  match s.data with
  | [] => false
  | c :: _ => c == '#'

/-- A Go `map[string]string`, modelled extensionally. -/
def Smap : Type := String → Option String

/-- `make(map[string]string)`. -/
def emptySmap : Smap := fun _ => none

/-- `m[k] = v` on a Go string map. -/
def setKey (m : Smap) (k v : String) : Smap :=
  fun q => if q = k then some v else m q

/-- `maps.Copy(dst, src)`: every key of `src` overwrites `dst`. -/
def copySmap (dst src : Smap) : Smap :=
  fun q =>
    match src q with
    | some v => some v
    | none => dst q

/-- The filesystem visible to the cascade resolver: a path (as a list of
segments) is mapped to the contents of the file there, or `none` when the
file does not exist. -/
def FS : Type := List String → Option String

/-- Go `strings.SplitN(l, "=", 2)` restricted to the split outcome:
`none` when `l` contains no `=`, otherwise the part before the first `=`
and the remainder. -/
def splitEq2 (l : String) : Option (String × String) :=
  match strSplit l '=' with
  | [] => none
  | [_] => none
  | p :: q :: ps => some (p, strJoin "=" (q :: ps))

/-- The line loop of `dock.loadConfig`: walks the lines (1-indexed by `n`),
skipping blank and `#` lines, splitting the rest on the first `=`,
accumulating key/value pairs, and stopping at the first malformed line.
Returns the accumulated map and the error, exactly as the Go function
returns `(res, err)`. -/
def parseLines (ls : List String) (n : Nat) (res : Smap) : Smap × Option String :=
  match ls with
  | [] => (res, none)
  | line :: rest =>
    let l := trimS line
    if l.data.isEmpty || startsWithHash l then
      parseLines rest (n + 1) res
    else
      match splitEq2 l with
      | none => (res, some ("invalid format at line " ++ toString n ++ ": missing '=' character"))
      | some kv =>
        if (trimS kv.1).data.isEmpty then
          (res, some ("empty key at line " ++ toString n))
        else
          parseLines rest (n + 1) (setKey res (trimS kv.1) (trimS kv.2))

/-- `dock.loadConfig`: a missing file is an empty scope; otherwise the file
contents are split on newlines and parsed line by line. -/
def loadConfig (fs : FS) (path : List String) : Smap × Option String :=
  match fs path with
  | none => (emptySmap, none)
  | some content => parseLines (strSplit content '\n') 1 emptySmap

/-- `filepath.Join` over already-split segments (for error messages). -/
def pathStr (p : List String) : String := strJoin "/" p

/-- `strings.Split(strings.Trim(relpath, "/"), "/")`. -/
def splitRelpath (relpath : String) : List String :=
  strSplit
    (String.mk (((relpath.data.dropWhile (fun c => c == '/')).reverse.dropWhile
      (fun c => c == '/')).reverse))
    '/'

/-- The per-segment loop of `dock.GetConfig`: descend one directory at a
time, load its `.env` scope, abort on a load error (returning the configs
merged so far alongside the error), otherwise merge and continue. -/
def segLoop (fs : FS) (currentPath : List String) (segs : List String)
    (configs : Smap) : Smap × Option String :=
  match segs with
  | [] => (configs, none)
  | seg :: rest =>
    if seg.data.isEmpty then segLoop fs currentPath rest configs
    else
      match (loadConfig fs (currentPath ++ [seg] ++ [".env"])).2 with
      | some e =>
        (configs, some ("failed to load config at " ++ pathStr (currentPath ++ [seg] ++ [".env"]) ++ ": " ++ e))
      | none =>
        segLoop fs (currentPath ++ [seg]) rest
          (copySmap configs (loadConfig fs (currentPath ++ [seg] ++ [".env"])).1)

/-- `dock.GetConfig`: load the root `.env`, then walk the relative path
segment by segment, merging each directory's `.env` over the accumulated
configuration. -/
def GetConfig (fs : FS) (dock : List String) (relpath : String) : Smap × Option String :=
  match (loadConfig fs (dock ++ [".env"])).2 with
  | some e => (emptySmap, some ("failed to load root config: " ++ e))
  | none =>
    let configs := copySmap emptySmap (loadConfig fs (dock ++ [".env"])).1
    if relpath.data.isEmpty then (configs, none)
    else segLoop fs dock (splitRelpath relpath) configs

/-- The cumulative directory sequence visited by `segLoop`. -/
def cumPaths (base : List String) (segs : List String) : List (List String) :=
  match segs with
  | [] => []
  | seg :: rest =>
    if seg.data.isEmpty then cumPaths base rest
    else (base ++ [seg]) :: cumPaths (base ++ [seg]) rest

/-- All directories whose `.env` scope participates in the cascade for
`relpath`, root first. -/
def scopePaths (dock : List String) (relpath : String) : List (List String) :=
  if relpath.data.isEmpty then [dock]
  else dock :: cumPaths dock (splitRelpath relpath)

/-- The scope maps of the cascade, root first. -/
def scopeMaps (fs : FS) (dock : List String) (relpath : String) : List Smap :=
  (scopePaths dock relpath).map (fun p => (loadConfig fs (p ++ [".env"])).1)

/-- One merge step at a key: a scope that defines `k` overwrites the
accumulated value, a scope that does not define `k` retains it. -/
def overrideStep (k : String) (acc : Option String) (m : Smap) : Option String :=
  match m k with
  | some v => some v
  | none => acc

/-- Root-to-leaf merge of a list of scopes, looked up at one key: a later
scope that defines `k` overwrites the earlier value, a later scope that
does not define `k` retains it. -/
def cascadeGet (ms : List Smap) (k : String) : Option String :=
  ms.foldl (overrideStep k) none

/-- Whether the scope at directory `p` loads without error. -/
def scopeOk (fs : FS) (p : List String) : Bool :=
  ((loadConfig fs (p ++ [".env"])).2).isNone

/-- A registered function: already-evaluated string arguments in, a string
result or an error out (pure model of the Go callback type
`func(...string) (string, error)`). -/
def FnImpl : Type := List String → Except String String

/-- The function registry `map[string]func(...string) (string, error)`. -/
def FnMap : Type := String → Option FnImpl

/-- `variable.VariableResolver`: an environment mapping plus a function
registry. -/
structure VariableResolver where
  env : Smap
  functions : FnMap

/-- `variable.RegisterFunc`: registering an already-present name fails and
leaves the registry untouched; otherwise the callback is bound. The Go
method mutates the receiver and returns only the error; here the updated
resolver is returned alongside. -/
def RegisterFunc (resolver : VariableResolver) (funcname : String) (callback : FnImpl) :
    VariableResolver × Option String :=
  match resolver.functions funcname with
  | some _ => (resolver, some (funcname ++ " already registered"))
  | none =>
    ({ resolver with
        functions := fun q => if q = funcname then some callback else resolver.functions q },
      none)

/-- `variable.ContainsFunc`. -/
def ContainsFunc (resolver : VariableResolver) (funcname : String) : Bool :=
  (resolver.functions funcname).isSome

/-- `variable.evaluateFunction`: look the name up in the registry and invoke
the callback on the evaluated parameters. -/
def evaluateFunction (resolver : VariableResolver) (funcname : String) (params : List String) :
    Except String String :=
  match resolver.functions funcname with
  | some fn => fn params
  | none => Except.error ("function " ++ funcname ++ " does not exist")

/-- One alternative of the `variable.isString` regex
`^'[^']*'$|^"[^"]*"$`: first character is the quote `q`, last character is
`q`, and no `q` occurs strictly inside. -/
def quotedBy (q : Char) (e : String) : Bool :=
  match e.data with
  | [] => false
  | c :: rest =>
    c == q && !rest.isEmpty && rest.dropLast.all (fun x => x != q) && rest.getLast? == some q

/-- `variable.isString`. -/
def isString (expression : String) : Bool :=
  quotedBy '\'' expression || quotedBy '"' expression

/-- Go `strings.Index(s, "(")` (on the char level; `(` is one byte, so byte
and char indices of the first occurrence describe the same position). -/
def indexOfChar (cs : List Char) (target : Char) : Option Nat :=
  match cs with
  | [] => none
  | c :: rest =>
    if c == target then some 0
    else
      match indexOfChar rest target with
      | some i => some (i + 1)
      | none => none

/-- The scanning loop of `variable.getParams`: split on commas at
parenthesis depth zero, stop at the unmatched closing parenthesis, trim each
segment. An empty accumulated segment is appended at a comma, but dropped at
the closing parenthesis and at the end of the input. -/
def getParamsLoop (cs : List Char) (depth : Nat) (acc : List Char) (res : List String) :
    List String :=
  match cs with
  | [] => if acc.isEmpty then res else res ++ [trimS (String.mk acc)]
  | c :: rest =>
    if c == ',' && depth == 0 then
      getParamsLoop rest depth [] (res ++ [trimS (String.mk acc)])
    else if c == '(' then
      getParamsLoop rest (depth + 1) (acc ++ [c]) res
    else if c == ')' then
      if depth == 0 then (if acc.isEmpty then res else res ++ [trimS (String.mk acc)])
      else getParamsLoop rest (depth - 1) (acc ++ [c]) res
    else
      getParamsLoop rest depth (acc ++ [c]) res

/-- `variable.getParams`. -/
def getParams (params : String) : List String :=
  if (trimS params).data.isEmpty then [] else getParamsLoop params.data 0 [] []

/-- Size of a parameter list, used as the termination measure of expression
evaluation: every parameter costs its length plus one. -/
def paramsSize (ps : List String) : Nat :=
  match ps with
  | [] => 0
  | p :: rest => p.length + 1 + paramsSize rest

/-- `dropWhile` never lengthens a list. -/
def dropWhile_length_le : ∀ {α : Type} (p : α → Bool) (l : List α),
    (l.dropWhile p).length ≤ l.length := by
  intro α p l
  induction l with
  | nil => simp [List.dropWhile]
  | cons a t ih =>
    rw [List.dropWhile_cons]
    by_cases h : p a = true
    · simp only [h, if_true]
      simp only [List.length_cons]
      omega
    · simp [h]

/-- `trimChars` never lengthens a list (supports the termination argument
of `evaluateExpression`). -/
def trimChars_length_le : ∀ cs : List Char, (trimChars cs).length ≤ cs.length := by
  intro cs
  unfold trimChars
  calc (((cs.dropWhile isSpaceChar).reverse.dropWhile isSpaceChar).reverse).length
      = ((cs.dropWhile isSpaceChar).reverse.dropWhile isSpaceChar).length :=
        List.length_reverse _
    _ ≤ (cs.dropWhile isSpaceChar).reverse.length := dropWhile_length_le _ _
    _ = (cs.dropWhile isSpaceChar).length := List.length_reverse _
    _ ≤ cs.length := dropWhile_length_le _ _

/-- `trimS` never lengthens a string. -/
def trimS_length_le : ∀ s : String, (trimS s).length ≤ s.length := by
  intro s
  exact trimChars_length_le s.data

/-- `paramsSize` of a snoc. -/
def paramsSize_append : ∀ (res : List String) (s : String),
    paramsSize (res ++ [s]) = paramsSize res + (s.length + 1) := by
  intro res s
  induction res with
  | nil => simp [paramsSize]
  | cons p rest ih => simp [paramsSize, ih]; omega

/-- The segments produced by `getParamsLoop` together weigh no more than
the pending accumulator plus the unread input (plus one for a final
segment). Supports the termination argument of `evaluateExpression`. -/
def paramsSize_getParamsLoop : ∀ (cs : List Char) (depth : Nat) (acc : List Char)
    (res : List String),
    paramsSize (getParamsLoop cs depth acc res) ≤
      paramsSize res + acc.length + cs.length + 1 := by
  intro cs
  induction cs with
  | nil =>
    intro depth acc res
    simp only [getParamsLoop]
    split
    · simp only [List.length_nil]; omega
    · rw [paramsSize_append]
      have := trimChars_length_le acc
      simp only [trimS, String.length, List.length_nil]
      omega
  | cons c rest ih =>
    intro depth acc res
    simp only [getParamsLoop]
    have htrim := trimChars_length_le acc
    split
    · have h := ih depth [] (res ++ [trimS (String.mk acc)])
      rw [paramsSize_append] at h
      simp only [trimS, String.length, List.length_cons, List.length_nil] at h ⊢
      omega
    · split
      · have h := ih (depth + 1) (acc ++ [c]) res
        simp only [List.length_append, List.length_cons, List.length_nil] at h ⊢
        omega
      · split
        · split
          · split
            · simp only [List.length_cons]; omega
            · rw [paramsSize_append]
              simp only [trimS, String.length, List.length_cons]
              omega
          · have h := ih (depth - 1) (acc ++ [c]) res
            simp only [List.length_append, List.length_cons, List.length_nil] at h ⊢
            omega
        · have h := ih depth (acc ++ [c]) res
          simp only [List.length_append, List.length_cons, List.length_nil] at h ⊢
          omega

/-- `getParams` of a string weighs no more than the string plus one. -/
def paramsSize_getParams : ∀ s : String, paramsSize (getParams s) ≤ s.length + 1 := by
  intro s
  unfold getParams
  by_cases h : (trimS s).data.isEmpty
  · simp [h, paramsSize]
  · simp only [h, Bool.false_eq_true, ite_false]
    have := paramsSize_getParamsLoop s.data 0 [] []
    simp only [paramsSize, List.length_nil, String.length] at this ⊢
    omega

/-- A trimmed parameter is strictly smaller than the parameter list it
heads (termination of the parameter loop). -/
def trimS_lt_paramsSize_cons : ∀ (p : String) (rest : List String),
    (trimS p).length < paramsSize (p :: rest) := by
  intro p rest
  have := trimS_length_le p
  simp only [paramsSize, String.length] at this ⊢
  omega

/-- The tail of a parameter list is strictly smaller than the list
(termination of the parameter loop). -/
def paramsSize_tail_lt : ∀ (p : String) (rest : List String),
    paramsSize rest < paramsSize (p :: rest) := by
  intro p rest
  simp only [paramsSize]
  omega

/-- An index returned by `indexOfChar` is in range. -/
def indexOfChar_lt_length : ∀ (cs : List Char) (t : Char) (i : Nat),
    indexOfChar cs t = some i → i < cs.length := by
  intro cs
  induction cs with
  | nil => intro t i h; simp [indexOfChar] at h
  | cons c rest ih =>
    intro t i h
    unfold indexOfChar at h
    by_cases hc : (c == t) = true
    · simp only [hc, if_true] at h
      cases h
      simp
    · simp only [hc, Bool.false_eq_true, ite_false] at h
      cases hrec : indexOfChar rest t with
      | none => rw [hrec] at h; cases h
      | some j =>
        rw [hrec] at h
        cases h
        have := ih t j hrec
        simp only [List.length_cons]
        omega

/-- The non-call tail of `variable.evaluateExpression`: exact environment
lookup first, quoted literal second, otherwise a lookup error. `e` is the
already-trimmed expression. -/
def evalVarOrLiteral (resolver : VariableResolver) (e : String) : Except String String :=
  match resolver.env e with
  | some v => Except.ok v
  | none =>
    if isString e then Except.ok (String.mk ((e.data.drop 1).dropLast))
    else Except.error ("variable '" ++ e ++ "' not found")

mutual

/-- `variable.evaluateExpression`: trim, reject the empty expression, treat
a `(` at positive index as a call (function name before the parenthesis,
arguments split by `getParams`, evaluated recursively left to right, then
dispatched through the registry); otherwise look the expression up in the
environment, then try the quoted-literal form, else fail. -/
def evaluateExpression (resolver : VariableResolver) (expression : String) :
    Except String String :=
  if (trimS expression).data.isEmpty then Except.error "empty expression"
  else
    match hfi : indexOfChar (trimS expression).data '(' with
    | some i =>
      if hi : 0 < i then
        if (trimS (String.mk ((trimS expression).data.take i))).data.isEmpty then
          Except.error "empty function name"
        else
          match evalParamsList resolver (trimS (String.mk ((trimS expression).data.take i)))
              (getParams (String.mk ((trimS expression).data.drop (i + 1)))) 0 with
          | Except.error err => Except.error err
          | Except.ok vals =>
            evaluateFunction resolver (trimS (String.mk ((trimS expression).data.take i))) vals
      else evalVarOrLiteral resolver (trimS expression)
    | none => evalVarOrLiteral resolver (trimS expression)
termination_by expression.length
decreasing_by
  have h1 := paramsSize_getParams (String.mk ((trimS expression).data.drop (i + 1)))
  have h2 := indexOfChar_lt_length (trimS expression).data '(' i hfi
  have h3 := trimS_length_le expression
  simp only [String.length, List.length_drop] at h1 h2 h3 ⊢
  omega

/-- The parameter loop inside `variable.evaluateExpression`: evaluate each
argument expression in order; the first failure is wrapped with the
1-based parameter position and the function name. -/
def evalParamsList (resolver : VariableResolver) (funcname : String) (ps : List String)
    (i : Nat) : Except String (List String) :=
  match ps with
  | [] => Except.ok []
  | p :: rest =>
    match evaluateExpression resolver (trimS p) with
    | Except.error err =>
      Except.error ("error in parameter " ++ toString (i + 1) ++ " of function " ++
        funcname ++ ": " ++ err)
    | Except.ok v =>
      match evalParamsList resolver funcname rest (i + 1) with
      | Except.error err => Except.error err
      | Except.ok vs => Except.ok (v :: vs)
termination_by paramsSize ps
decreasing_by
  · apply trimS_lt_paramsSize_cons
  · apply paramsSize_tail_lt

end

/-- The tail of the placeholder regex `\{\{\s*(.*?)\s*\}\}`: greedy `\s*`
followed by the literal `}}`. Because `}` is not whitespace, the
whitespace run is forced; returns the text after the closing braces. -/
def closeAfterWs (cs : List Char) : Option (List Char) :=
  match cs.dropWhile isSpaceChar with
  | '\x7d' :: '\x7d' :: tail => some tail
  | _ => none

/-- The lazy group `(.*?)\s*\}\}` of the placeholder regex: at each
position first try to close, else extend the group by one character —
which, as `.`, must not be a newline. Returns the group and the text after
the match. -/
def tryBody (cs : List Char) : Option (List Char × List Char) :=
  match closeAfterWs cs with
  | some rest => some ([], rest)
  | none =>
    match cs with
    | [] => none
    | c :: tail =>
      if c == '\n' then none
      else
        match tryBody tail with
        | some gr => some (c :: gr.1, gr.2)
        | none => none

/-- Matching the inside of a placeholder right after `{{`: the leading
greedy `\s*`, then the lazy body. (Backtracking into a shorter leading
whitespace run can never produce a match when the maximal run fails, since
every close attempt inside the run skips to the same position, so the
greedy choice is exact.) -/
def matchMiddle (cs : List Char) : Option (List Char × List Char) :=
  tryBody (cs.dropWhile isSpaceChar)

/-- `tryBody` consumes at least the closing braces: the leftover text is
no longer than the input (termination of the template scanner). -/
def tryBody_rest_le : ∀ (cs : List Char) (gr : List Char × List Char),
    tryBody cs = some gr → gr.2.length ≤ cs.length := by
  intro cs
  induction cs with
  | nil =>
    intro gr h
    simp only [tryBody, closeAfterWs, List.dropWhile_nil] at h
    cases h
  | cons c tail ih =>
    intro gr h
    rw [tryBody] at h
    cases hc : closeAfterWs (c :: tail) with
    | some rest =>
      rw [hc] at h
      cases h
      have h2 : rest.length + 2 ≤ ((c :: tail).dropWhile isSpaceChar).length := by
        unfold closeAfterWs at hc
        cases hd : (c :: tail).dropWhile isSpaceChar with
        | nil => rw [hd] at hc; cases hc
        | cons a l1 =>
          cases l1 with
          | nil =>
            rw [hd] at hc
            by_cases ha : a = '\x7d' <;> simp [ha] at hc
          | cons b l2 =>
            rw [hd] at hc
            by_cases ha : a = '\x7d'
            · by_cases hb : b = '\x7d'
              · subst ha; subst hb
                simp only [Option.some.injEq] at hc
                subst hc
                simp only [List.length_cons]
                omega
              · simp [ha, hb] at hc
            · simp [ha] at hc
      have h3 := dropWhile_length_le isSpaceChar (c :: tail)
      simp only [List.length_cons] at h2 h3 ⊢
      omega
    | none =>
      rw [hc] at h
      simp only [] at h
      by_cases hn : (c == '\n') = true
      · rw [if_pos hn] at h; cases h
      · rw [if_neg hn] at h
        cases ht : tryBody tail with
        | none => rw [ht] at h; cases h
        | some gr2 =>
          rw [ht] at h
          cases h
          have := ih gr2 ht
          simp only [List.length_cons]
          omega

/-- The leftover after a successful `matchMiddle` is no longer than the
input. -/
def matchMiddle_rest_le : ∀ (cs : List Char) (gr : List Char × List Char),
    matchMiddle cs = some gr → gr.2.length ≤ cs.length := by
  intro cs gr h
  unfold matchMiddle at h
  have h1 := tryBody_rest_le _ gr h
  have h2 := dropWhile_length_le isSpaceChar cs
  omega

/-- A fragment of a template as seen by the regex scanner: plain text, or a
placeholder match carrying its group (the raw expression between the
braces) and the full matched text. -/
inductive Piece where
  | lit (s : String)
  | ph (group : String) (full : String)

/-- The scanner underlying both `FindAllStringSubmatch` and
`ReplaceAllStringFunc` on the placeholder regex: leftmost matches, scanning
forward one character at a time, continuing after each match
(non-overlapping). `acc` collects pending unmatched characters. Recursion
is on a fuel count; every step consumes at least one input character (a
match consumes at least four), so `cs.length` steps always suffice and the
fuel-exhausted case is unreachable from `scanTemplate`. -/
def scanAux (fuel : Nat) (cs : List Char) (acc : List Char) : List Piece :=
  match fuel with
  | 0 => if acc.isEmpty then [] else [Piece.lit (String.mk acc)]
  | fuel + 1 =>
    match cs with
    | '\x7b' :: '\x7b' :: rest =>
      match matchMiddle rest with
      | some gr =>
        (if acc.isEmpty then [] else [Piece.lit (String.mk acc)]) ++
          Piece.ph (String.mk gr.1)
            (String.mk ('\x7b' :: '\x7b' :: rest.take (rest.length - gr.2.length))) ::
            scanAux fuel gr.2 []
      | none => scanAux fuel ('\x7b' :: rest) (acc ++ ['\x7b'])
    | c :: rest => scanAux fuel rest (acc ++ [c])
    | [] => if acc.isEmpty then [] else [Piece.lit (String.mk acc)]

/-- All pieces of a template under the placeholder regex. -/
def scanTemplate (value : String) : List Piece :=
  scanAux (value.length + 1) value.data []

/-- The validation pass of `variable.Resolve`: every extracted expression
is trimmed, rejected when empty, and evaluated; the first failure is
reported with the offending expression and the underlying cause. -/
def validateLoop (resolver : VariableResolver) (ps : List Piece) : Option String :=
  match ps with
  | [] => none
  | Piece.lit _ :: t => validateLoop resolver t
  | Piece.ph g _ :: t =>
    if (trimS g).data.isEmpty then some "empty variable expression"
    else
      match evaluateExpression resolver (trimS g) with
      | Except.error err =>
        some ("error in expression '\x7b\x7b" ++ trimS g ++ "\x7d\x7d': " ++ err)
      | Except.ok _ => validateLoop resolver t

/-- The substitution pass of `variable.Resolve`
(`ReplaceAllStringFunc`): each matched span is replaced by its evaluated
value; on an evaluation error the span is left as matched; all other text
passes through unchanged. -/
def substitutePieces (resolver : VariableResolver) (ps : List Piece) : String :=
  match ps with
  | [] => ""
  | Piece.lit s :: t => s ++ substitutePieces resolver t
  | Piece.ph g full :: t =>
    (match evaluateExpression resolver (trimS g) with
     | Except.ok v => v
     | Except.error _ => full) ++ substitutePieces resolver t

/-- `variable.Resolve`: validate every placeholder first — any failure
aborts with the empty string and the error — then substitute. The Go
function returns the pair `(string, error)`. -/
def Resolve (resolver : VariableResolver) (value : String) : String × Option String :=
  match validateLoop resolver (scanTemplate value) with
  | some err => ("", some err)
  | none => (substitutePieces resolver (scanTemplate value), none)

/-- The trimmed expressions of the placeholder pieces, in order. -/
def pieceExprs (ps : List Piece) : List String :=
  ps.filterMap
    (fun p =>
      match p with
      | Piece.ph g _ => some (trimS g)
      | Piece.lit _ => none)

/-- The trimmed expressions of all placeholders of a template, in order. -/
def placeholderExprs (value : String) : List String :=
  pieceExprs (scanTemplate value)

/-- `variable.joinArgs`: at least two arguments required; all but the last
are joined with the last as separator. -/
def joinArgs (s : List String) : Except String String :=
  if s.length < 2 then
    Except.error ("join() function expects at least 2 parameters, got " ++ toString s.length)
  else Except.ok (strJoin (s.getLastD "") s.dropLast)

/-- Naive substring test (is `needle` a contiguous substring of `hay`?),
used to state that an error message does or does not name a path. -/
def containsSub (hay needle : List Char) : Bool :=
  match hay with
  | [] => needle.isEmpty
  | c :: t => needle.isPrefixOf (c :: t) || containsSub t needle

/-- A line is skipped by the scope-file parser: blank, or a comment. -/
def lineSkip (line : String) : Bool :=
  (trimS line).data.isEmpty || startsWithHash (trimS line)

/-- The key/value pair a scope-file line contributes, if any. -/
def lineKV (line : String) : Option (String × String) :=
  if lineSkip line then none
  else
    match splitEq2 (trimS line) with
    | none => none
    | some kv =>
      if (trimS kv.1).data.isEmpty then none else some (trimS kv.1, trimS kv.2)

/-- A line the scope-file parser accepts: skipped, or a `KEY=VALUE` pair
with a non-empty trimmed key. -/
def lineOk (line : String) : Bool :=
  lineSkip line ||
    (match splitEq2 (trimS line) with
     | none => false
     | some kv => !(trimS kv.1).data.isEmpty)

/-- A malformed line: not skipped and without any `=`. -/
def lineNoEq (line : String) : Bool :=
  !lineSkip line && (splitEq2 (trimS line)).isNone

/-- A line whose key is empty after trimming. -/
def lineEmptyKey (line : String) : Bool :=
  !lineSkip line &&
    (match splitEq2 (trimS line) with
     | none => false
     | some kv => (trimS kv.1).data.isEmpty)

/-- An identifier character (letter, digit or underscore). -/
def isIdentChar (c : Char) : Bool :=
  c.isAlpha || c.isDigit || c == '_'

/-- A bare identifier: non-empty and made of identifier characters only. -/
def isIdentStr (s : String) : Bool :=
  !s.data.isEmpty && s.data.all isIdentChar

/-- Workspace for the cascade-merge example of the specification:
root `.env` has `X=1`, `a/.env` has `X=2,Y=1`, `a/b/.env` has `Y=2`. -/
def fsMerge : FS := fun p =>
  if p = ["root", ".env"] then some "X=1"
  else if p = ["root", "a", ".env"] then some "X=2\nY=1"
  else if p = ["root", "a", "b", ".env"] then some "Y=2"
  else none

/-- Workspace whose root scope loads but whose `a/.env` is malformed. -/
def fsMidFail : FS := fun p =>
  if p = ["root", ".env"] then some "X=1"
  else if p = ["root", "a", ".env"] then some "FOO"
  else none

/-- Workspace whose root `.env` itself is malformed (a line with no `=`). -/
def fsRootBad : FS := fun p =>
  if p = ["root", ".env"] then some "FOO" else none

/-- Workspace with one scope file that assigns `A` twice. -/
def fsDup : FS := fun p =>
  if p = ["root", ".env"] then some "A=1\nA=2\nB=3" else none

/-- Workspace whose scope file has a comment line followed by a line with
no `=`. -/
def fsBadLine2 : FS := fun _ => some "# ok\nFOO"

/-- Workspace whose scope file starts with an `=` (empty key). -/
def fsEmptyKey : FS := fun _ => some "=x"

/-- A resolver with an empty registry whose environment maps the key
`'a'` — a string that is itself a quoted literal — and `Base_Url`. -/
def rQuoteKey : VariableResolver :=
  ⟨fun k =>
      if k = "'a'" then some "zzz"
      else if k = "Base_Url" then some "https://svc" else none,
    fun _ => none⟩

/-- A fixed pure callback standing in for the `uuid` built-in. -/
def uuidFixed : FnImpl := fun args =>
  if args.isEmpty then Except.ok "u-fixed"
  else Except.error "uuid() function takes no arguments"

/-- A resolver whose registry binds `uuid` to a fixed pure callback. -/
def rUuid : VariableResolver :=
  ⟨fun _ => none, fun k => if k = "uuid" then some uuidFixed else none⟩

/-- A replacement callback for the re-registration example. -/
def otherCallback : FnImpl := fun _ => Except.ok "other"

/-- A resolver with empty environment and empty registry. -/
def rEmpty : VariableResolver := ⟨fun _ => none, fun _ => none⟩

end Rq

namespace Rq

/-! ## Theorems -/

theorem copySmap_get (d s : Smap) (k : String) :
    copySmap d s k = overrideStep k (d k) s := rfl

/-- Unfolding `segLoop` when every visited scope loads: the result at a key
is the accumulated value overridden by each visited scope in order. -/
theorem segLoop_none_get (fs : FS) (segs : List String) :
    ∀ (cur : List String) (configs : Smap),
      (segLoop fs cur segs configs).2 = none →
      ∀ k, (segLoop fs cur segs configs).1 k =
        ((cumPaths cur segs).map (fun p => (loadConfig fs (p ++ [".env"])).1)).foldl
          (overrideStep k) (configs k) := by
  induction segs with
  | nil =>
    intro cur configs h k
    simp [segLoop, cumPaths]
  | cons seg rest ih =>
    intro cur configs h k
    by_cases hs : seg.data.isEmpty
    · rw [segLoop] at h ⊢
      simp only [hs, if_true] at h ⊢
      rw [cumPaths]
      simp only [hs, if_true]
      exact ih cur configs h k
    · cases hl : (loadConfig fs (cur ++ [seg] ++ [".env"])).2 with
      | some e =>
        exfalso
        rw [segLoop] at h
        simp only [hs, Bool.false_eq_true, ite_false, hl] at h
        cases h
      | none =>
        rw [segLoop] at h ⊢
        simp only [hs, Bool.false_eq_true, ite_false, hl] at h ⊢
        rw [cumPaths]
        simp only [hs, Bool.false_eq_true, ite_false, List.map_cons, List.foldl_cons]
        rw [ih _ _ h k, copySmap_get]

/-- If some visited scope fails to load, `segLoop` reports an error. -/
theorem segLoop_fail_isSome (fs : FS) (segs : List String) :
    ∀ (cur : List String) (configs : Smap) (p : List String),
      p ∈ cumPaths cur segs → scopeOk fs p = false →
      ((segLoop fs cur segs configs).2).isSome = true := by
  induction segs with
  | nil =>
    intro cur configs p hp
    simp [cumPaths] at hp
  | cons seg rest ih =>
    intro cur configs p hp hbad
    by_cases hs : seg.data.isEmpty
    · rw [cumPaths] at hp
      simp only [hs, if_true] at hp
      rw [segLoop]
      simp only [hs, if_true]
      exact ih cur configs p hp hbad
    · rw [cumPaths] at hp
      simp only [hs, Bool.false_eq_true, ite_false, List.mem_cons] at hp
      cases hl : (loadConfig fs (cur ++ [seg] ++ [".env"])).2 with
      | some e =>
        rw [segLoop]
        simp only [hs, Bool.false_eq_true, ite_false, hl, Option.isSome_some]
      | none =>
        cases hp with
        | inl hp =>
          exfalso
          rw [hp] at hbad
          rw [scopeOk, hl] at hbad
          cases hbad
        | inr hp =>
          rw [segLoop]
          simp only [hs, Bool.false_eq_true, ite_false, hl]
          exact ih _ _ p hp hbad

/-- Unfolding `segLoop` when it stops at a failing scope: the result at a
key merges exactly the scopes visited before the failure. -/
theorem segLoop_some_get (fs : FS) (segs : List String) :
    ∀ (cur : List String) (configs : Smap),
      ((segLoop fs cur segs configs).2).isSome = true →
      ∀ k, (segLoop fs cur segs configs).1 k =
        (((cumPaths cur segs).takeWhile (scopeOk fs)).map
          (fun p => (loadConfig fs (p ++ [".env"])).1)).foldl
          (overrideStep k) (configs k) := by
  induction segs with
  | nil =>
    intro cur configs h k
    simp [segLoop] at h
  | cons seg rest ih =>
    intro cur configs h k
    by_cases hs : seg.data.isEmpty
    · rw [segLoop] at h ⊢
      simp only [hs, if_true] at h ⊢
      rw [cumPaths]
      simp only [hs, if_true]
      exact ih cur configs h k
    · cases hl : (loadConfig fs (cur ++ [seg] ++ [".env"])).2 with
      | some e =>
        rw [segLoop]
        rw [cumPaths]
        have hnotok : scopeOk fs (cur ++ [seg]) = false := by
          rw [scopeOk, hl]
          rfl
        simp only [hs, Bool.false_eq_true, ite_false, hl, List.takeWhile_cons, hnotok,
          List.map_nil, List.foldl_nil]
      | none =>
        rw [segLoop] at h ⊢
        simp only [hs, Bool.false_eq_true, ite_false, hl] at h ⊢
        rw [cumPaths]
        have hok : scopeOk fs (cur ++ [seg]) = true := by
          rw [scopeOk, hl]
          rfl
        simp only [hs, Bool.false_eq_true, ite_false, List.takeWhile_cons, hok, if_true,
          List.map_cons, List.foldl_cons]
        rw [ih _ _ h k, copySmap_get]

/-- C2 — the cascade resolver merges the per-directory `.env` scopes in
root-to-leaf order: whenever `GetConfig` succeeds, its value at any key is
the root-to-leaf override-merge of the individual scope maps — later
(deeper) scopes overwrite keys they define, keys absent from later scopes
retain their earlier values. -/
theorem GetConfig_cascade_merge (fs : FS) (dock : List String) (relpath : String)
    (h : (GetConfig fs dock relpath).2 = none) (k : String) :
    (GetConfig fs dock relpath).1 k = cascadeGet (scopeMaps fs dock relpath) k := by
  cases hr : (loadConfig fs (dock ++ [".env"])).2 with
  | some e =>
    exfalso
    rw [GetConfig, hr] at h
    cases h
  | none =>
    rw [GetConfig, hr] at h ⊢
    by_cases hrel : relpath.data.isEmpty
    · simp only [hrel, if_true]
      simp only [scopeMaps, scopePaths, hrel, if_true, List.map_cons, List.map_nil,
        cascadeGet, List.foldl_cons, List.foldl_nil]
      rfl
    · simp only [hrel, Bool.false_eq_true, ite_false] at h ⊢
      rw [segLoop_none_get fs _ dock _ h k]
      simp only [scopeMaps, scopePaths, hrel, Bool.false_eq_true, ite_false, List.map_cons,
        cascadeGet, List.foldl_cons]
      rfl

/-- C2 witness: the specification's example — root `.env` has `X=1`,
`a/.env` has `X=2,Y=1`, `a/b/.env` has `Y=2`; resolving `a/b` succeeds and
yields `X = 2` and `Y = 2`. -/
theorem GetConfig_cascade_merge_witness :
    (GetConfig fsMerge ["root"] "a/b").2 = none ∧
    (GetConfig fsMerge ["root"] "a/b").1 "X" = some "2" ∧
    (GetConfig fsMerge ["root"] "a/b").1 "Y" = some "2" := by
  refine ⟨by decide, ?_, ?_⟩
  · exact (GetConfig_cascade_merge fsMerge ["root"] "a/b" (by decide) "X").trans (by decide)
  · exact (GetConfig_cascade_merge fsMerge ["root"] "a/b" (by decide) "Y").trans (by decide)

/-- C3 counterexample: with root `.env` containing `X=1` and `a/.env`
malformed, `GetConfig` on `a` returns an error, yet the mapping handed
back alongside the error still contains `X = 1`, merged from the earlier
successfully loaded root scope — so an error is not accompanied by an
empty merge result. -/
theorem GetConfig_partial_counterexample :
    ((GetConfig fsMidFail ["root"] "a").2).isSome = true ∧
    (GetConfig fsMidFail ["root"] "a").1 "X" = some "1" := by
  exact ⟨by decide, by decide⟩

/-- C3 amended: if any scope of the cascade fails to load, `GetConfig`
returns an error, and the mapping returned alongside the error is the
merge of exactly the scopes successfully loaded before the failure (so
pairs from those earlier scopes are handed back with the error, and
nothing at or after the failing scope is merged). -/
theorem GetConfig_error_partial_merge (fs : FS) (dock : List String) (relpath : String)
    (h : ∃ p ∈ scopePaths dock relpath, scopeOk fs p = false) :
    ((GetConfig fs dock relpath).2).isSome = true ∧
    ∀ k, (GetConfig fs dock relpath).1 k =
      cascadeGet (((scopePaths dock relpath).takeWhile (scopeOk fs)).map
        (fun p => (loadConfig fs (p ++ [".env"])).1)) k := by
  obtain ⟨p, hp, hbad⟩ := h
  cases hr : (loadConfig fs (dock ++ [".env"])).2 with
  | some e =>
    have hdock : scopeOk fs dock = false := by rw [scopeOk, hr]; rfl
    constructor
    · rw [GetConfig, hr]
      rfl
    · intro k
      rw [GetConfig, hr]
      by_cases hrel : relpath.data.isEmpty
      · simp only [scopePaths, hrel, if_true, List.takeWhile_cons, hdock,
          Bool.false_eq_true, ite_false, List.map_nil, cascadeGet, List.foldl_nil]
        rfl
      · simp only [scopePaths, hrel, Bool.false_eq_true, ite_false, List.takeWhile_cons,
          hdock, List.map_nil, cascadeGet, List.foldl_nil]
        rfl
  | none =>
    have hdock : scopeOk fs dock = true := by rw [scopeOk, hr]; rfl
    by_cases hrel : relpath.data.isEmpty
    · exfalso
      rw [scopePaths] at hp
      simp only [hrel, if_true, List.mem_singleton] at hp
      rw [hp] at hbad
      rw [hdock] at hbad
      cases hbad
    · have hpc : p ∈ cumPaths dock (splitRelpath relpath) := by
        rw [scopePaths] at hp
        simp only [hrel, Bool.false_eq_true, ite_false, List.mem_cons] at hp
        cases hp with
        | inl hp => exfalso; rw [hp, hdock] at hbad; cases hbad
        | inr hp => exact hp
      have hseg := segLoop_fail_isSome fs (splitRelpath relpath) dock
        (copySmap emptySmap (loadConfig fs (dock ++ [".env"])).1) p hpc hbad
      constructor
      · rw [GetConfig, hr]
        simp only [hrel, Bool.false_eq_true, ite_false]
        exact hseg
      · intro k
        rw [GetConfig, hr]
        simp only [hrel, Bool.false_eq_true, ite_false]
        rw [segLoop_some_get fs _ dock _ hseg k]
        simp only [scopePaths, hrel, Bool.false_eq_true, ite_false, List.takeWhile_cons,
          hdock, if_true, List.map_cons, cascadeGet, List.foldl_cons]
        rfl

/-- C3 witness for the amended statement: root `.env` has `X=1`, `a/.env`
is malformed; resolving `a` errors, and the accompanying mapping is
exactly the root scope — `X = 1` is handed back, nothing else. -/
theorem GetConfig_error_partial_merge_witness :
    ((GetConfig fsMidFail ["root"] "a").2).isSome = true ∧
    (GetConfig fsMidFail ["root"] "a").1 "X" = some "1" ∧
    (GetConfig fsMidFail ["root"] "a").1 "Y" = none := by
  have h := GetConfig_error_partial_merge fsMidFail ["root"] "a"
    ⟨["root", "a"], by decide, by decide⟩
  exact ⟨h.1, (h.2 "X").trans (by decide), (h.2 "Y").trans (by decide)⟩

/-- Processing a prefix of accepted lines only advances the line counter
and the accumulated map. -/
theorem parseLines_prefix (pre : List String) :
    ∀ (ls : List String) (n : Nat) (res : Smap),
      (∀ l ∈ pre, lineOk l = true) →
      ∃ res2, parseLines (pre ++ ls) n res = parseLines ls (n + pre.length) res2 := by
  induction pre with
  | nil =>
    intro ls n res _
    exact ⟨res, by simp⟩
  | cons line pre ih =>
    intro ls n res h
    have hline : lineOk line = true := h line (List.mem_cons_self line pre)
    have hrest : ∀ l ∈ pre, lineOk l = true := fun l hl => h l (List.mem_cons_of_mem line hl)
    rw [List.cons_append, parseLines]
    by_cases hskip : lineSkip line = true
    · rw [lineSkip] at hskip
      simp only [hskip, if_true]
      obtain ⟨res2, hres2⟩ := ih ls (n + 1) res hrest
      refine ⟨res2, hres2.trans ?_⟩
      congr 1
      simp only [List.length_cons]
      omega
    · rw [lineSkip] at hskip
      simp only [hskip, Bool.false_eq_true, ite_false]
      cases hsp : splitEq2 (trimS line) with
      | none =>
        exfalso
        rw [lineOk, lineSkip, hsp] at hline
        simp only [hskip, Bool.false_or] at hline
        cases hline
      | some kv =>
        have hkey : (trimS kv.1).data.isEmpty = false := by
          rw [lineOk, lineSkip, hsp] at hline
          simp only [hskip, Bool.false_or] at hline
          cases hke : (trimS kv.1).data.isEmpty
          · rfl
          · rw [hke] at hline
            cases hline
        simp only [hsp, hkey, Bool.false_eq_true, ite_false]
        obtain ⟨res2, hres2⟩ := ih ls (n + 1) (setKey res (trimS kv.1) (trimS kv.2)) hrest
        refine ⟨res2, hres2.trans ?_⟩
        congr 1
        simp only [List.length_cons]
        omega

/-- C6 amended: a malformed scope line is reported with its 1-based line
number — a non-skipped line with no `=` (first such line, all earlier
lines accepted) yields the format error `invalid format at line N`, and a
line with an empty trimmed key yields `empty key at line N`; the file path
is not part of `loadConfig`'s own error. -/
theorem loadConfig_error_line_numbers (fs : FS) (path : List String) (content : String)
    (pre : List String) (bad : String) (rest : List String)
    (hc : fs path = some content)
    (hsplit : strSplit content '\n' = pre ++ bad :: rest)
    (hpre : ∀ l ∈ pre, lineOk l = true) :
    (lineNoEq bad = true →
      (loadConfig fs path).2 =
        some ("invalid format at line " ++ toString (pre.length + 1) ++
          ": missing '=' character")) ∧
    (lineEmptyKey bad = true →
      (loadConfig fs path).2 = some ("empty key at line " ++ toString (pre.length + 1))) := by
  have hload : loadConfig fs path = parseLines (pre ++ bad :: rest) 1 emptySmap := by
    rw [loadConfig, hc, ← hsplit]
  rw [hload]
  obtain ⟨res2, heq⟩ := parseLines_prefix pre (bad :: rest) 1 emptySmap hpre
  rw [heq]
  have hn : 1 + pre.length = pre.length + 1 := Nat.add_comm 1 pre.length
  rw [hn]
  constructor
  · intro hbad
    rw [lineNoEq] at hbad
    have hskip : lineSkip bad = false := by
      cases hs : lineSkip bad
      · rfl
      · rw [hs] at hbad; cases hbad
    have hsp : splitEq2 (trimS bad) = none := by
      rw [hskip] at hbad
      simp only [Bool.not_false, Bool.true_and, Option.isNone_iff_eq_none] at hbad
      exact hbad
    rw [lineSkip] at hskip
    rw [parseLines]
    simp only [hskip, Bool.false_eq_true, ite_false, hsp]
  · intro hbad
    rw [lineEmptyKey] at hbad
    have hskip : lineSkip bad = false := by
      cases hs : lineSkip bad
      · rfl
      · rw [hs] at hbad; cases hbad
    rw [hskip] at hbad
    simp only [Bool.not_false, Bool.true_and] at hbad
    cases hsp : splitEq2 (trimS bad) with
    | none => rw [hsp] at hbad; cases hbad
    | some kv =>
      simp only [hsp] at hbad
      rw [lineSkip] at hskip
      rw [parseLines]
      simp only [hskip, Bool.false_eq_true, ite_false, hsp, hbad, if_true]

/-- C6 witness: a comment line followed by the line `FOO` gives the format
error at line 2; a file whose first line is `=x` gives the empty-key error
at line 1. -/
theorem loadConfig_error_line_numbers_witness :
    (loadConfig fsBadLine2 ["root", ".env"]).2 =
      some "invalid format at line 2: missing '=' character" ∧
    (loadConfig fsEmptyKey ["root", ".env"]).2 = some "empty key at line 1" := by
  constructor
  · exact ((loadConfig_error_line_numbers fsBadLine2 ["root", ".env"] "# ok\nFOO"
      ["# ok"] "FOO" [] (by decide) (by decide) (by decide)).1 (by decide)).trans (by decide)
  · exact ((loadConfig_error_line_numbers fsEmptyKey ["root", ".env"] "=x"
      [] "=x" [] (by decide) (by decide) (by decide)).2 (by decide)).trans (by decide)

/-- C6 counterexample: the claim requires the format error to name the
file's path; but `loadConfig`'s error names only the line number, and the
root-scope wrapping of `GetConfig` adds `failed to load root config`
without the path, so neither error message contains the path
`root/.env`. -/
theorem loadConfig_error_no_path_counterexample :
    (loadConfig fsRootBad ["root", ".env"]).2 =
      some "invalid format at line 1: missing '=' character" ∧
    (GetConfig fsRootBad ["root"] "").2 =
      some "failed to load root config: invalid format at line 1: missing '=' character" ∧
    containsSub
      "failed to load root config: invalid format at line 1: missing '=' character".data
      (pathStr ["root", ".env"]).data = false ∧
    containsSub
      "failed to load root config: invalid format at line 1: missing '=' character".data
      ".env".data = false := by
  exact ⟨by decide, by decide, by decide, by decide⟩

/-- When every line is accepted, parsing succeeds and the resulting map at
any key is the override-fold of the contributed key/value pairs over the
starting map. -/
theorem parseLines_all_ok (ls : List String) :
    ∀ (n : Nat) (res : Smap),
      (∀ l ∈ ls, lineOk l = true) →
      (parseLines ls n res).2 = none ∧
      ∀ k, (parseLines ls n res).1 k =
        (ls.filterMap lineKV).foldl
          (fun acc kv => if k = kv.1 then some kv.2 else acc) (res k) := by
  induction ls with
  | nil =>
    intro n res _
    exact ⟨rfl, fun k => rfl⟩
  | cons line rest ih =>
    intro n res h
    have hline : lineOk line = true := h line (List.mem_cons_self line rest)
    have hrest : ∀ l ∈ rest, lineOk l = true := fun l hl => h l (List.mem_cons_of_mem line hl)
    by_cases hskip : lineSkip line = true
    · have hkv : lineKV line = none := by
        rw [lineKV, hskip]
        rfl
      rw [parseLines]
      rw [lineSkip] at hskip
      simp only [hskip, if_true, List.filterMap_cons, hkv]
      exact ih (n + 1) res hrest
    · have hskipf : lineSkip line = false := by
        cases hs : lineSkip line
        · rfl
        · exact absurd hs hskip
      cases hsp : splitEq2 (trimS line) with
      | none =>
        exfalso
        rw [lineOk, hskipf, hsp] at hline
        simp only [Bool.false_or] at hline
        cases hline
      | some kv =>
        have hkey : (trimS kv.1).data.isEmpty = false := by
          rw [lineOk, hskipf, hsp] at hline
          simp only [Bool.false_or] at hline
          cases hke : (trimS kv.1).data.isEmpty
          · rfl
          · rw [hke] at hline
            cases hline
        have hkv : lineKV line = some (trimS kv.1, trimS kv.2) := by
          rw [lineKV, hskipf, hsp]
          simp only [hkey, Bool.false_eq_true, ite_false]
        rw [parseLines]
        rw [lineSkip] at hskipf
        simp only [hskipf, Bool.false_eq_true, ite_false, hsp, hkey, List.filterMap_cons, hkv,
          List.foldl_cons]
        obtain ⟨h1, h2⟩ := ih (n + 1) (setKey res (trimS kv.1) (trimS kv.2)) hrest
        refine ⟨h1, fun k => (h2 k).trans ?_⟩
        congr 1

/-- Override-folding an association list equals taking the value of the
last entry for the key. -/
theorem foldl_override_eq_find (l : List (String × String)) (k : String) :
    ∀ init : Option String,
      l.foldl (fun acc kv => if k = kv.1 then some kv.2 else acc) init =
        match l.reverse.find? (fun kv => kv.1 == k) with
        | some kv => some kv.2
        | none => init := by
  induction l with
  | nil =>
    intro init
    simp [List.find?]
  | cons kv t ih =>
    intro init
    rw [List.foldl_cons, ih, List.reverse_cons, List.find?_append]
    cases hf : t.reverse.find? (fun kv => kv.1 == k) with
    | some kv2 => simp [Option.or, hf]
    | none =>
      simp only [hf, Option.none_or]
      by_cases hk : kv.1 = k
      · simp [List.find?, hk]
      · have : (kv.1 == k) = false := by
          cases hb : kv.1 == k
          · rfl
          · exact absurd (by simpa using hb) hk
        simp [List.find?, this, Ne.symm hk]

/-- C10 — duplicate keys within one scope file: when every line of the
file is accepted, loading succeeds, and each key maps to the value of the
last line assigning it (later lines overwrite earlier ones). -/
theorem loadConfig_last_key_wins (fs : FS) (path : List String) (content : String)
    (hc : fs path = some content)
    (h : ∀ l ∈ strSplit content '\n', lineOk l = true) :
    (loadConfig fs path).2 = none ∧
    ∀ k, (loadConfig fs path).1 k =
      match ((strSplit content '\n').filterMap lineKV).reverse.find?
          (fun kv => kv.1 == k) with
      | some kv => some kv.2
      | none => none := by
  have hload : loadConfig fs path = parseLines (strSplit content '\n') 1 emptySmap := by
    rw [loadConfig, hc]
  rw [hload]
  obtain ⟨h1, h2⟩ := parseLines_all_ok (strSplit content '\n') 1 emptySmap h
  refine ⟨h1, fun k => (h2 k).trans ?_⟩
  exact foldl_override_eq_find _ k none

/-- C10 witness: the file `A=1`, `A=2`, `B=3` loads successfully and binds
`A` to `2` — the value of the last assignment — and `B` to `3`. -/
theorem loadConfig_last_key_wins_witness :
    (loadConfig fsDup ["root", ".env"]).2 = none ∧
    (loadConfig fsDup ["root", ".env"]).1 "A" = some "2" ∧
    (loadConfig fsDup ["root", ".env"]).1 "B" = some "3" := by
  have h := loadConfig_last_key_wins fsDup ["root", ".env"] "A=1\nA=2\nB=3"
    (by decide) (by decide)
  exact ⟨h.1, (h.2 "A").trans (by decide), (h.2 "B").trans (by decide)⟩

/-! ### Unfolding lemmas for the expression engine -/

theorem mem_of_head?_eq (l : List Char) (c : Char) (h : l.head? = some c) : c ∈ l := by
  cases l with
  | nil => cases h
  | cons a t =>
    rw [List.head?_cons] at h
    cases h
    exact List.mem_cons_self _ _

theorem mem_of_getLast?_eq (l : List Char) (c : Char) (h : l.getLast? = some c) : c ∈ l := by
  rw [← List.head?_reverse] at h
  have := mem_of_head?_eq l.reverse c h
  exact (List.mem_reverse).mp this

theorem dropWhile_eq_self_of_head? (l : List Char)
    (h : ∀ c, l.head? = some c → isSpaceChar c = false) :
    l.dropWhile isSpaceChar = l := by
  cases l with
  | nil => rfl
  | cons c t =>
    rw [List.dropWhile_cons, h c rfl]
    simp

/-- A character list whose first and last characters are not whitespace is
unchanged by trimming. -/
theorem trimChars_eq_self (cs : List Char)
    (h1 : ∀ c, cs.head? = some c → isSpaceChar c = false)
    (h2 : ∀ c, cs.getLast? = some c → isSpaceChar c = false) :
    trimChars cs = cs := by
  rw [trimChars]
  rw [dropWhile_eq_self_of_head? cs h1]
  rw [dropWhile_eq_self_of_head? cs.reverse
    (fun c hc => h2 c (by rwa [List.head?_reverse] at hc))]
  exact List.reverse_reverse cs

theorem indexOfChar_eq_none (t : Char) (cs : List Char)
    (h : ∀ c ∈ cs, (c == t) = false) : indexOfChar cs t = none := by
  induction cs with
  | nil => rfl
  | cons c rest ih =>
    rw [indexOfChar]
    rw [h c (List.mem_cons_self c rest)]
    simp only [Bool.false_eq_true, ite_false]
    rw [ih (fun c hc => h c (List.mem_cons_of_mem _ hc))]

theorem indexOfChar_append_first (t : Char) (l1 l2 : List Char)
    (h : ∀ c ∈ l1, (c == t) = false) :
    indexOfChar (l1 ++ t :: l2) t = some l1.length := by
  induction l1 with
  | nil =>
    rw [List.nil_append, indexOfChar]
    simp
  | cons c rest ih =>
    rw [List.cons_append, indexOfChar]
    rw [h c (List.mem_cons_self c rest)]
    simp only [Bool.false_eq_true, ite_false]
    rw [ih (fun c hc => h c (List.mem_cons_of_mem _ hc))]
    simp [List.length_cons]

/-- Unfolding `evaluateExpression` on an expression that trims to empty. -/
theorem evaluateExpression_empty (resolver : VariableResolver) (e : String)
    (h : (trimS e).data.isEmpty = true) :
    evaluateExpression resolver e = Except.error "empty expression" := by
  rw [evaluateExpression.eq_def]
  simp only [h, if_true]

/-- Unfolding `evaluateExpression` when the first `(` is absent or at index
zero: evaluation is exact lookup / literal / failure on the trimmed text. -/
theorem evaluateExpression_plain (resolver : VariableResolver) (e : String)
    (hne : (trimS e).data.isEmpty = false)
    (hidx : ∀ i, indexOfChar (trimS e).data '(' = some i → i = 0) :
    evaluateExpression resolver e = evalVarOrLiteral resolver (trimS e) := by
  rw [evaluateExpression.eq_def]
  simp only [hne, Bool.false_eq_true, ite_false]
  split
  · next i heq =>
    have h0 : i = 0 := hidx i heq
    rw [dif_neg (by omega)]
  · rfl

/-- Unfolding `evaluateExpression` on a call: a `(` at positive index `i`
splits the trimmed text into function name and parameter text. -/
theorem evaluateExpression_call (resolver : VariableResolver) (e : String)
    (hne : (trimS e).data.isEmpty = false)
    (i : Nat) (hidx : indexOfChar (trimS e).data '(' = some i) (hi : 0 < i)
    (hfn : (trimS (String.mk ((trimS e).data.take i))).data.isEmpty = false) :
    evaluateExpression resolver e =
      match evalParamsList resolver (trimS (String.mk ((trimS e).data.take i)))
          (getParams (String.mk ((trimS e).data.drop (i + 1)))) 0 with
      | Except.error err => Except.error err
      | Except.ok vals =>
        evaluateFunction resolver (trimS (String.mk ((trimS e).data.take i))) vals := by
  rw [evaluateExpression.eq_def]
  simp only [hne, Bool.false_eq_true, ite_false]
  split
  · next j heq =>
    have hj : j = i := by
      rw [hidx] at heq
      cases heq
      rfl
    subst hj
    rw [dif_pos hi]
    simp only [hfn, Bool.false_eq_true, ite_false]
  · next heq =>
    rw [hidx] at heq
    cases heq

theorem evalParamsList_nil (resolver : VariableResolver) (fn : String) (i : Nat) :
    evalParamsList resolver fn [] i = Except.ok [] := by
  rw [evalParamsList.eq_def]

theorem evalParamsList_cons_error (resolver : VariableResolver) (fn p : String)
    (rest : List String) (i : Nat) (c : String)
    (h : evaluateExpression resolver (trimS p) = Except.error c) :
    evalParamsList resolver fn (p :: rest) i =
      Except.error ("error in parameter " ++ toString (i + 1) ++ " of function " ++
        fn ++ ": " ++ c) := by
  rw [evalParamsList.eq_def]
  simp only [h]

theorem evalParamsList_cons_ok (resolver : VariableResolver) (fn p : String)
    (rest : List String) (i : Nat) (v : String)
    (h : evaluateExpression resolver (trimS p) = Except.ok v) :
    evalParamsList resolver fn (p :: rest) i =
      match evalParamsList resolver fn rest (i + 1) with
      | Except.error err => Except.error err
      | Except.ok vs => Except.ok (v :: vs) := by
  rw [evalParamsList.eq_def]
  simp only [h]

/-! ### Character-class facts -/

theorem ident_not_space (c : Char) (h : isIdentChar c = true) : isSpaceChar c = false := by
  cases hs : isSpaceChar c
  · rfl
  · exfalso
    rw [isSpaceChar] at hs
    simp only [Bool.or_eq_true, beq_iff_eq] at hs
    rcases hs with ((((h1 | h1) | h1) | h1) | h1) | h1 <;> (revert h; rw [h1]; decide)

theorem ident_ne_char (q : Char) (hq : isIdentChar q = false) (c : Char)
    (h : isIdentChar c = true) : (c == q) = false := by
  cases hb : c == q
  · rfl
  · exfalso
    have hc : c = q := by simpa using hb
    rw [hc, hq] at h
    cases h

theorem isIdentStr_parts (e : String) (h : isIdentStr e = true) :
    e.data ≠ [] ∧ ∀ c ∈ e.data, isIdentChar c = true := by
  rw [isIdentStr, Bool.and_eq_true] at h
  obtain ⟨h1, h2⟩ := h
  constructor
  · intro hc
    rw [hc] at h1
    cases h1
  · exact List.all_eq_true.mp h2

/-- An identifier is unchanged by trimming. -/
theorem trimS_eq_self_of_ident (e : String) (h : isIdentStr e = true) : trimS e = e := by
  obtain ⟨hne, hall⟩ := isIdentStr_parts e h
  show String.mk (trimChars e.data) = e
  rw [trimChars_eq_self e.data
    (fun c hc => ident_not_space c (hall c (mem_of_head?_eq _ c hc)))
    (fun c hc => ident_not_space c (hall c (mem_of_getLast?_eq _ c hc)))]

/-- An identifier is not a quoted string. -/
theorem isString_false_of_ident (e : String) (h : ∀ c ∈ e.data, isIdentChar c = true) :
    isString e = false := by
  have hq : ∀ q, isIdentChar q = false → quotedBy q e = false := by
    intro q hqq
    rw [quotedBy]
    cases hd : e.data with
    | nil => rfl
    | cons c rest =>
      have hc : isIdentChar c = true := by
        refine h c ?_
        rw [hd]
        exact List.mem_cons_self _ _
      simp [ident_ne_char q hqq c hc]
  rw [isString, hq '\'' (by decide), hq '"' (by decide)]
  rfl

/-- The shape of a quoted string: a quote, an inner text free of that
quote, the closing quote. -/
theorem isString_parts (e : String) (h : isString e = true) :
    ∃ q cs, (q = '\'' ∨ q = '"') ∧ e.data = q :: (cs ++ [q]) := by
  have main : ∀ q, quotedBy q e = true → ∃ cs, e.data = q :: (cs ++ [q]) := by
    intro q hqb
    rw [quotedBy] at hqb
    cases hd : e.data with
    | nil => rw [hd] at hqb; cases hqb
    | cons c rest =>
      rw [hd] at hqb
      simp only [Bool.and_eq_true, beq_iff_eq] at hqb
      obtain ⟨⟨⟨hcq, hrest⟩, _⟩, hlast⟩ := hqb
      have hne : rest ≠ [] := by
        intro hr
        rw [hr] at hrest
        cases hrest
      refine ⟨rest.dropLast, ?_⟩
      rw [hcq]
      congr 1
      have hgl : rest.getLast hne = q := by
        have := List.getLast?_eq_getLast rest hne
        rw [this] at hlast
        exact Option.some.inj hlast
      have hsplit := List.dropLast_append_getLast hne
      rw [hgl] at hsplit
      exact hsplit.symm
  rw [isString, Bool.or_eq_true] at h
  cases h with
  | inl h => exact ⟨'\'', (main '\'' h).choose, Or.inl rfl, (main '\'' h).choose_spec⟩
  | inr h => exact ⟨'"', (main '"' h).choose, Or.inr rfl, (main '"' h).choose_spec⟩

/-- A quoted string is unchanged by trimming (its first and last
characters are quotes). -/
theorem trimS_eq_self_of_isString (e : String) (h : isString e = true) : trimS e = e := by
  obtain ⟨q, cs2, hq12, hdata⟩ := isString_parts e h
  have hqns : isSpaceChar q = false := by
    rcases hq12 with h1 | h1 <;> (subst h1; decide)
  show String.mk (trimChars e.data) = e
  rw [trimChars_eq_self e.data ?h1 ?h2]
  case h1 =>
    intro c hc
    rw [hdata, List.head?_cons] at hc
    cases hc
    exact hqns
  case h2 =>
    intro c hc
    rw [hdata, ← List.cons_append, List.getLast?_concat] at hc
    cases hc
    exact hqns

/-- C5 — bare-identifier evaluation is an exact, case-sensitive lookup:
the mapped value when the exact identifier is a key, otherwise a lookup
error; no default-value fallback exists. -/
theorem variableRef_exact_lookup (resolver : VariableResolver) (e : String)
    (h : isIdentStr e = true) :
    evaluateExpression resolver e =
      match resolver.env e with
      | some v => Except.ok v
      | none => Except.error ("variable '" ++ e ++ "' not found") := by
  obtain ⟨hne0, hall⟩ := isIdentStr_parts e h
  have htrim : trimS e = e := trimS_eq_self_of_ident e h
  have hne : (trimS e).data.isEmpty = false := by
    rw [htrim]
    cases hd : e.data with
    | nil => exact absurd hd hne0
    | cons c rest => rfl
  have hnoparen : indexOfChar (trimS e).data '(' = none := by
    rw [htrim]
    exact indexOfChar_eq_none '(' e.data
      (fun c hc => ident_ne_char '(' (by decide) c (hall c hc))
  rw [evaluateExpression_plain resolver e hne
    (by intro i hi; rw [hnoparen] at hi; cases hi)]
  rw [htrim, evalVarOrLiteral]
  cases henv : resolver.env e with
  | some v => rfl
  | none =>
    rw [isString_false_of_ident e hall]
    rfl

/-- C5 witness: with a mapping containing only `Base_Url`, the expression
`BASE_URL` fails with a lookup error while `Base_Url` resolves — lookup is
exact and case-sensitive. -/
theorem variableRef_exact_lookup_witness :
    evaluateExpression rQuoteKey "BASE_URL" = Except.error "variable 'BASE_URL' not found" ∧
    evaluateExpression rQuoteKey "Base_Url" = Except.ok "https://svc" := by
  constructor
  · exact (variableRef_exact_lookup rQuoteKey "BASE_URL" (by decide)).trans (by decide)
  · exact (variableRef_exact_lookup rQuoteKey "Base_Url" (by decide)).trans (by decide)

/-- C4 counterexample: evaluation of a quoted string is not independent of
the environment — with a mapping whose key is the five-character string
`'a'`, the expression `'a'` evaluates to the mapped value `zzz`, not to
the inner text `a`. -/
theorem literal_env_shadow_counterexample :
    evaluateExpression rQuoteKey "'a'" = Except.ok "zzz" ∧
    (Except.ok "zzz" : Except String String) ≠ Except.ok "a" := by
  constructor
  · rw [evaluateExpression.eq_def]
    decide
  · decide

/-- C4 amended: a quoted string containing no `(` and not itself a key of
the environment mapping evaluates to the content between the quotes,
verbatim. -/
theorem literal_eval_amended (resolver : VariableResolver) (e : String)
    (hq : isString e = true)
    (hp : ∀ c ∈ e.data, (c == '(') = false)
    (henv : resolver.env e = none) :
    evaluateExpression resolver e = Except.ok (String.mk ((e.data.drop 1).dropLast)) := by
  have htrim : trimS e = e := trimS_eq_self_of_isString e hq
  obtain ⟨q, cs, _, hdata⟩ := isString_parts e hq
  have hne : (trimS e).data.isEmpty = false := by
    rw [htrim, hdata]
    rfl
  have hnoparen : indexOfChar (trimS e).data '(' = none := by
    rw [htrim]
    exact indexOfChar_eq_none '(' e.data hp
  rw [evaluateExpression_plain resolver e hne
    (by intro i hi; rw [hnoparen] at hi; cases hi)]
  rw [htrim, evalVarOrLiteral]
  simp only [henv, hq, if_true]

/-- C4 witness for the amended statement: `'hello'` evaluates to `hello`
under an empty environment. -/
theorem literal_eval_amended_witness :
    evaluateExpression rEmpty "'hello'" = Except.ok "hello" := by
  exact (literal_eval_amended rEmpty "'hello'" (by decide) (by decide) rfl).trans (by decide)

/-- C7 — `join` concatenates all arguments except the last, separated by
the last argument, and rejects argument lists shorter than two. -/
theorem joinArgs_all_but_last :
    (∀ (args : List String) (sep : String), args ≠ [] →
      joinArgs (args ++ [sep]) = Except.ok (strJoin sep args)) ∧
    (∀ s : List String, s.length < 2 →
      joinArgs s = Except.error
        ("join() function expects at least 2 parameters, got " ++ toString s.length)) := by
  constructor
  · intro args sep hne
    have hpos : 0 < args.length := List.length_pos.mpr hne
    have hlen : ¬ (args ++ [sep]).length < 2 := by
      simp only [List.length_append, List.length_cons, List.length_nil]
      omega
    rw [joinArgs, if_neg hlen, List.dropLast_concat, List.getLastD_concat]
  · intro s h
    rw [joinArgs, if_pos h]

/-- C7 witness: the specification's examples plus the short-list failures:
`join('a','b','-') = "a-b"`, `join('a','b','c','-') = "a-b-c"`, and one or
zero arguments are rejected. -/
theorem joinArgs_all_but_last_witness :
    joinArgs ["a", "b", "-"] = Except.ok "a-b" ∧
    joinArgs ["a", "b", "c", "-"] = Except.ok "a-b-c" ∧
    joinArgs ["a"] = Except.error "join() function expects at least 2 parameters, got 1" ∧
    joinArgs [] = Except.error "join() function expects at least 2 parameters, got 0" := by
  refine ⟨?_, ?_, ?_, ?_⟩
  · exact (joinArgs_all_but_last.1 ["a", "b"] "-" (by decide)).trans (by decide)
  · exact (joinArgs_all_but_last.1 ["a", "b", "c"] "-" (by decide)).trans (by decide)
  · exact (joinArgs_all_but_last.2 ["a"] (by decide)).trans (by decide)
  · exact (joinArgs_all_but_last.2 [] (by decide)).trans (by decide)

/-- C8 — registering an already-present name fails and leaves the
registry unchanged: the call reports `already registered`, the resolver is
untouched, and invoking the name afterwards still runs the originally
registered callback. -/
theorem registerFunc_duplicate (resolver : VariableResolver) (funcname : String)
    (cb0 cb : FnImpl) (h : resolver.functions funcname = some cb0) :
    (RegisterFunc resolver funcname cb).2 = some (funcname ++ " already registered") ∧
    (RegisterFunc resolver funcname cb).1 = resolver ∧
    ∀ args, evaluateFunction (RegisterFunc resolver funcname cb).1 funcname args =
      cb0 args := by
  have hreg : RegisterFunc resolver funcname cb =
      (resolver, some (funcname ++ " already registered")) := by
    rw [RegisterFunc, h]
  refine ⟨by rw [hreg], by rw [hreg], fun args => ?_⟩
  rw [hreg]
  show evaluateFunction resolver funcname args = cb0 args
  rw [evaluateFunction]
  simp only [h]

/-- C8 witness: re-registering `uuid` on a resolver that already has it
fails with `uuid already registered`, and `uuid` still evaluates with its
original behavior. -/
theorem registerFunc_duplicate_witness :
    (RegisterFunc rUuid "uuid" otherCallback).2 = some "uuid already registered" ∧
    evaluateFunction (RegisterFunc rUuid "uuid" otherCallback).1 "uuid" [] =
      Except.ok "u-fixed" := by
  have h := registerFunc_duplicate rUuid "uuid" uuidFixed otherCallback rfl
  exact ⟨h.1, (h.2.2 []).trans (by decide)⟩

/-- Evaluating `f(<inner>)` for an identifier `f`: the name before the
parenthesis is `f`, and the argument text is everything after it. -/
theorem evaluateExpression_ident_call (resolver : VariableResolver) (f : String)
    (rest : List Char) (hf : isIdentStr f = true) :
    evaluateExpression resolver (f ++ String.mk ('(' :: (rest ++ [')']))) =
      match evalParamsList resolver f (getParams (String.mk (rest ++ [')']))) 0 with
      | Except.error err => Except.error err
      | Except.ok vals => evaluateFunction resolver f vals := by
  obtain ⟨hne0, hall⟩ := isIdentStr_parts f hf
  have hpos : 0 < f.data.length := by
    cases hfd : f.data with
    | nil => exact absurd hfd hne0
    | cons a t => simp [List.length_cons]
  have hdata : (f ++ String.mk ('(' :: (rest ++ [')']))).data =
      f.data ++ ('(' :: (rest ++ [')'])) := by
    rw [String.data_append]
  have htrim : trimS (f ++ String.mk ('(' :: (rest ++ [')']))) =
      f ++ String.mk ('(' :: (rest ++ [')'])) := by
    have h1 : ∀ c, (f ++ String.mk ('(' :: (rest ++ [')']))).data.head? = some c →
        isSpaceChar c = false := by
      intro c hc
      rw [hdata, List.head?_append] at hc
      cases hfd : f.data with
      | nil => exact absurd hfd hne0
      | cons a t =>
        rw [hfd, List.head?_cons] at hc
        simp only [Option.or] at hc
        have hac : a = c := Option.some.inj hc
        subst hac
        refine ident_not_space a (hall a ?_)
        rw [hfd]
        exact List.mem_cons_self _ _
    have h2 : ∀ c, (f ++ String.mk ('(' :: (rest ++ [')']))).data.getLast? = some c →
        isSpaceChar c = false := by
      intro c hc
      rw [hdata, ← List.cons_append, ← List.append_assoc, List.getLast?_concat] at hc
      cases hc
      decide
    show String.mk (trimChars (f ++ String.mk ('(' :: (rest ++ [')']))).data) = _
    rw [trimChars_eq_self _ h1 h2]
  have hne : (trimS (f ++ String.mk ('(' :: (rest ++ [')'])))).data.isEmpty = false := by
    rw [htrim, hdata]
    cases hfd : f.data with
    | nil => exact absurd hfd hne0
    | cons a t => rfl
  have hidx : indexOfChar (trimS (f ++ String.mk ('(' :: (rest ++ [')'])))).data '(' =
      some f.data.length := by
    rw [htrim, hdata]
    exact indexOfChar_append_first '(' f.data (rest ++ [')'])
      (fun c hc => ident_ne_char '(' (by decide) c (hall c hc))
  have hfn' : trimS (String.mk
      ((trimS (f ++ String.mk ('(' :: (rest ++ [')'])))).data.take f.data.length)) = f := by
    rw [htrim, hdata, List.take_left]
    exact trimS_eq_self_of_ident f hf
  have hfne : (trimS (String.mk
      ((trimS (f ++ String.mk ('(' :: (rest ++ [')'])))).data.take
        f.data.length))).data.isEmpty = false := by
    rw [hfn']
    cases hfd : f.data with
    | nil => exact absurd hfd hne0
    | cons a t => rfl
  have hdrop : String.mk
      ((trimS (f ++ String.mk ('(' :: (rest ++ [')'])))).data.drop (f.data.length + 1)) =
      String.mk (rest ++ [')']) := by
    rw [htrim, hdata, List.drop_append]
    rfl
  rw [evaluateExpression_call resolver (f ++ String.mk ('(' :: (rest ++ [')'])))
    hne f.data.length hidx hpos hfne]
  rw [hfn', hdrop]

/-- C9 — a call with exactly nothing between the parentheses invokes the
function with the empty argument list, while parentheses enclosing only
whitespace produce one empty-string argument whose evaluation fails with
the empty-expression error, failing the whole evaluation. -/
theorem call_empty_vs_whitespace_args (resolver : VariableResolver) (f : String)
    (h : isIdentStr f = true) :
    evaluateExpression resolver (f ++ "()") = evaluateFunction resolver f [] ∧
    evaluateExpression resolver (f ++ "( )") =
      Except.error ("error in parameter 1 of function " ++ f ++ ": empty expression") := by
  constructor
  · have h1 := evaluateExpression_ident_call resolver f [] h
    rw [show String.mk ('(' :: (([] : List Char) ++ [')'])) = "()" from rfl] at h1
    rw [show String.mk (([] : List Char) ++ [')']) = ")" from rfl] at h1
    rw [show getParams ")" = ([] : List String) from by decide] at h1
    rw [evalParamsList_nil] at h1
    exact h1
  · have h1 := evaluateExpression_ident_call resolver f [' '] h
    rw [show String.mk ('(' :: ([' '] ++ [')'])) = "( )" from rfl] at h1
    rw [show String.mk ([' '] ++ [')']) = " )" from rfl] at h1
    rw [show getParams " )" = [""] from by decide] at h1
    rw [show ([""] : List String) = "" :: [] from rfl] at h1
    rw [evalParamsList_cons_error resolver f "" [] 0 "empty expression"
      (evaluateExpression_empty resolver (trimS "") (by decide))] at h1
    have hmsg : ("error in parameter " ++ toString (0 + 1) ++ " of function " ++ f ++
        ": " ++ "empty expression") =
        ("error in parameter 1 of function " ++ f ++ ": empty expression") := by
      rw [show (("error in parameter " ++ toString (0 + 1) ++ " of function ") : String) =
        "error in parameter 1 of function " from by decide]
      rw [String.append_assoc]
      rw [show ((": " ++ "empty expression") : String) = ": empty expression" from by decide]
    rw [← hmsg]
    exact h1

/-- C9 witness: with `uuid` bound to a fixed callback, `uuid()` invokes it
on the empty argument list, and `uuid( )` fails with the empty-expression
error for parameter 1. -/
theorem call_empty_vs_whitespace_args_witness :
    evaluateExpression rUuid ("uuid" ++ "()") = Except.ok "u-fixed" ∧
    evaluateExpression rUuid ("uuid" ++ "( )") =
      Except.error "error in parameter 1 of function uuid: empty expression" := by
  have h := call_empty_vs_whitespace_args rUuid "uuid" (by decide)
  constructor
  · exact h.1.trans (by decide)
  · exact h.2.trans (by decide)

/-! ### The validation pass and atomicity of `Resolve` -/

theorem str_data_empty_iff (s : String) : s.data.isEmpty = true ↔ s = "" := by
  rw [List.isEmpty_iff]
  constructor
  · intro h
    exact String.ext h
  · intro h
    rw [h]

/-- If any placeholder expression of the pieces is empty or fails to
evaluate, the validation pass reports an error. -/
theorem validateLoop_isSome_of_fail (resolver : VariableResolver) (ps : List Piece)
    (h : ∃ e ∈ pieceExprs ps, e = "" ∨ ∃ c, evaluateExpression resolver e = Except.error c) :
    ((validateLoop resolver ps)).isSome = true := by
  induction ps with
  | nil =>
    obtain ⟨e, he, _⟩ := h
    cases he
  | cons p t ih =>
    cases p with
    | lit s =>
      rw [validateLoop]
      refine ih ?_
      rw [pieceExprs, List.filterMap_cons] at h
      exact h
    | ph g full =>
      rw [validateLoop]
      by_cases hemp : (trimS g).data.isEmpty = true
      · simp only [hemp, if_true]
        rfl
      · have hempf : (trimS g).data.isEmpty = false := by
          cases hd : (trimS g).data.isEmpty
          · rfl
          · exact absurd hd hemp
        simp only [hempf, Bool.false_eq_true, ite_false]
        cases hev : evaluateExpression resolver (trimS g) with
        | error err => rfl
        | ok v =>
          refine ih ?_
          obtain ⟨e, he, hprop⟩ := h
          rw [pieceExprs, List.filterMap_cons] at he
          simp only [List.mem_cons] at he
          cases he with
          | inl he =>
            exfalso
            subst he
            cases hprop with
            | inl hp =>
              rw [hp] at hempf
              cases hempf
            | inr hp =>
              obtain ⟨c, hc⟩ := hp
              rw [hev] at hc
              cases hc
          | inr he => exact ⟨e, he, hprop⟩

/-- The validation pass reports the first offending placeholder: when the
expressions before `e` are non-empty and evaluate successfully, `e` is
non-empty and fails with cause `c`, validation returns exactly the
wrapped error of `e`. -/
theorem validateLoop_first_error (resolver : VariableResolver) (ps : List Piece) :
    ∀ (pre : List String) (e : String) (rest : List String) (c : String),
      pieceExprs ps = pre ++ e :: rest →
      (∀ e2 ∈ pre, e2 ≠ "" ∧ ∃ v, evaluateExpression resolver e2 = Except.ok v) →
      e ≠ "" → evaluateExpression resolver e = Except.error c →
      validateLoop resolver ps =
        some ("error in expression '\x7b\x7b" ++ e ++ "\x7d\x7d': " ++ c) := by
  induction ps with
  | nil =>
    intro pre e rest c hsplit _ _ _
    rw [pieceExprs, List.filterMap_nil] at hsplit
    cases pre with
    | nil => cases hsplit
    | cons a t => cases hsplit
  | cons p t ih =>
    intro pre e rest c hsplit hpre hne heval
    cases p with
    | lit s =>
      rw [validateLoop]
      rw [pieceExprs, List.filterMap_cons] at hsplit
      exact ih pre e rest c hsplit hpre hne heval
    | ph g full =>
      rw [pieceExprs, List.filterMap_cons] at hsplit
      simp only [] at hsplit
      rw [validateLoop]
      cases pre with
      | nil =>
        rw [List.nil_append] at hsplit
        have hge : trimS g = e := (List.cons.inj hsplit).1
        have hempf : (trimS g).data.isEmpty = false := by
          cases hd : (trimS g).data.isEmpty
          · rfl
          · exact absurd ((str_data_empty_iff (trimS g)).mp hd) (hge ▸ hne)
        simp only [hempf, Bool.false_eq_true, ite_false]
        rw [hge, heval]
      | cons e2 pre2 =>
        rw [List.cons_append] at hsplit
        have hge : trimS g = e2 := (List.cons.inj hsplit).1
        have htl : pieceExprs t = pre2 ++ e :: rest := (List.cons.inj hsplit).2
        obtain ⟨hne2, v, hv⟩ := hpre e2 (List.mem_cons_self _ _)
        have hempf : (trimS g).data.isEmpty = false := by
          cases hd : (trimS g).data.isEmpty
          · rfl
          · exact absurd ((str_data_empty_iff (trimS g)).mp hd) (hge ▸ hne2)
        simp only [hempf, Bool.false_eq_true, ite_false]
        rw [hge, hv]
        exact ih pre2 e rest c htl
          (fun e3 he3 => hpre e3 (List.mem_cons_of_mem _ he3)) hne heval

/-- C1 — all-or-nothing resolution: if any extracted placeholder
expression is empty or fails to evaluate, `Resolve` returns an error and
the empty string (so the string accompanying the error contains no
substituted value); moreover the error wraps the first offending
expression together with the underlying cause. -/
theorem resolve_all_or_nothing (resolver : VariableResolver) (value : String) :
    ((∃ e ∈ placeholderExprs value,
        e = "" ∨ ∃ c, evaluateExpression resolver e = Except.error c) →
      (Resolve resolver value).1 = "" ∧ ((Resolve resolver value).2).isSome = true) ∧
    (∀ (pre : List String) (e : String) (rest : List String) (c : String),
      placeholderExprs value = pre ++ e :: rest →
      (∀ e2 ∈ pre, e2 ≠ "" ∧ ∃ v, evaluateExpression resolver e2 = Except.ok v) →
      e ≠ "" → evaluateExpression resolver e = Except.error c →
      Resolve resolver value =
        ("", some ("error in expression '\x7b\x7b" ++ e ++ "\x7d\x7d': " ++ c))) := by
  constructor
  · intro h
    have hv := validateLoop_isSome_of_fail resolver (scanTemplate value) h
    cases hval : validateLoop resolver (scanTemplate value) with
    | none =>
      rw [hval] at hv
      cases hv
    | some err =>
      rw [Resolve, hval]
      exact ⟨rfl, rfl⟩
  · intro pre e rest c hsplit hpre hne heval
    have hv := validateLoop_first_error resolver (scanTemplate value) pre e rest c
      hsplit hpre hne heval
    rw [Resolve, hv]

/-- C1 witness: in `x{{'q'}}y{{MISSING}}z` the first placeholder is a
valid literal and the second is undefined; the whole call fails with the
error naming `MISSING`, and the returned string is empty — it contains
no substituted value of the first placeholder. -/
theorem resolve_all_or_nothing_witness :
    Resolve rQuoteKey "x\x7b\x7b'q'\x7d\x7dy\x7b\x7bMISSING\x7d\x7dz" =
      ("", some "error in expression '\x7b\x7bMISSING\x7d\x7d': variable 'MISSING' not found") := by
  have h := (resolve_all_or_nothing rQuoteKey
      "x\x7b\x7b'q'\x7d\x7dy\x7b\x7bMISSING\x7d\x7dz").2
    ["'q'"] "MISSING" [] "variable 'MISSING' not found"
    (by decide)
    (by
      intro e2 he2
      rw [List.mem_singleton] at he2
      subst he2
      exact ⟨by decide, "q", by rw [evaluateExpression.eq_def]; decide⟩)
    (by decide)
    (by rw [evaluateExpression.eq_def]; decide)
  exact h.trans (by decide)

end Rq
